import Mathlib

/-!
Verification model of the GameTracking catalog reconciliation pipeline.

The Python modules `api/app/database.py`, `api/app/igdb_client.py`,
`api/app/fetchers/gamepass.py`, `api/app/fetchers/mock_gamepass.py` and
`api/app/main.py` are embedded shallowly:

* the SQLite tables become association lists keyed the way the schema keys
  them (the `catalog_items` primary key `(service, igdb_id, region)` becomes
  `CatKey`; `games` is keyed by `igdb_id`; `igdb_cache` by lower-cased name);
* ISO-8601 timestamps (which the code only ever stores and copies, and whose
  string order agrees with chronological order for timestamps produced inside
  one process) are modelled as `Nat`;
* network effects (the remote IGDB search, the fetcher HTTP download and the
  per-row SQLite failure modes) are oracles passed in as explicit parameters;
* Python exceptions that the code lets escape are modelled with `Except`,
  exceptions the code swallows are modelled by the value the handler
  substitutes;
* Python `str.lower`, `str.strip`, `int(...)` on strings, `json.dumps` of a
  list of strings, and SQL `LIKE` / `ORDER BY` are implemented below on
  character lists (ASCII-faithful, which covers every piece of data the
  repository handles) so that every definition evaluates by kernel reduction.
-/

namespace GameTracking

/-! ### Character and string primitives -/

/-- ASCII lower-casing of one character, as done by both Python `str.lower`
and SQLite `lower()` on ASCII input. -/
def lowerChar (c : Char) : Char :=
  if 65 ≤ c.toNat ∧ c.toNat ≤ 90 then Char.ofNat (c.toNat + 32) else c

/-- Model of Python `str.lower` (ASCII range). -/
def strLower (s : String) : String := ⟨s.data.map lowerChar⟩

/-- ASCII whitespace test used by the model of Python `str.strip`. -/
def isWspB (c : Char) : Bool :=
  c = ' ' || c = '\t' || c = '\n' || c = '\r' || c = '\x0b' || c = '\x0c'

/-- Model of Python `str.strip`: drop whitespace from both ends. -/
def strTrim (s : String) : String :=
  ⟨((s.data.dropWhile isWspB).reverse.dropWhile isWspB).reverse⟩

/-- Lexicographic (code-point) strict order on character lists: the order
SQLite `ORDER BY name ASC` (BINARY collation on UTF-8 text) and Python
`sorted` both use. -/
def lexLt : List Char → List Char → Bool
  | [], [] => false
  | [], _ :: _ => true
  | _ :: _, [] => false
  | c :: cs, d :: ds =>
    if c.toNat < d.toNat then true
    else if d.toNat < c.toNat then false
    else lexLt cs ds

/-- Non-strict string order derived from `lexLt`. -/
def strLe (a b : String) : Bool := !(lexLt b.data a.data)

/-- Digit test (ASCII). -/
def isDigitB (c : Char) : Bool := 48 ≤ c.toNat ∧ c.toNat ≤ 57

/-- Helper for `parseIntStr`: parse a digit run, failing on a non-digit. -/
def digitsValGo : List Char → Nat → Option Nat
  | [], acc => some acc
  | c :: t, acc =>
    if isDigitB c then digitsValGo t (acc * 10 + (c.toNat - 48)) else none

/-- Model of Python `int(s)` on strings: an optional sign followed by a
non-empty digit run; anything else raises `ValueError`, modelled as `none`. -/
def parseIntStr (s : String) : Option Int :=
  match s.data with
  | [] => none
  | '-' :: c :: t => (digitsValGo (c :: t) 0).map (fun n => -(n : Int))
  | c :: t => (digitsValGo (c :: t) 0).map (fun n => (n : Int))

/-- Escape one character for a JSON string body (quote and backslash; the
repository's data contains no control characters). -/
def jsonEscapeChar (c : Char) : List Char :=
  if c = '"' then ['\\', '"'] else if c = '\\' then ['\\', '\\'] else [c]

/-- JSON serialisation of one string, with surrounding quotes. -/
def dumpsStrData (s : String) : List Char :=
  '"' :: s.data.foldr (fun c acc => jsonEscapeChar c ++ acc) ['"']

/-- Join character-list chunks with the ", " separator `json.dumps` uses. -/
def commaJoin : List (List Char) → List Char
  | [] => []
  | [x] => x
  | x :: y :: t => x ++ ',' :: ' ' :: commaJoin (y :: t)

/-- Model of `json.dumps(list_of_strings)`, as stored in the
`alt_names_json` and `platforms_json` columns. -/
def dumpsList (xs : List String) : String :=
  ⟨'[' :: commaJoin (xs.map dumpsStrData) ++ [']']⟩

/-- Prefix test on character lists. -/
def isPrefixB : List Char → List Char → Bool
  | [], _ => true
  | _ :: _, [] => false
  | c :: cs, d :: ds => c = d && isPrefixB cs ds

/-- Substring test on character lists; models Python's `in` on strings. -/
def isSubstrB (needle : List Char) : List Char → Bool
  | [] => needle.isEmpty
  | d :: ds => isPrefixB needle (d :: ds) || isSubstrB needle ds

/-- Substring test on strings. -/
def substrS (needle hay : String) : Bool := isSubstrB needle.data hay.data

/-- Fuel-indexed SQL `LIKE` matcher: `%` matches any sequence, `_` any single
character.  Both operands reach it already lower-cased (`lower(name)` in the
SQL, `query.lower()` in Python), so SQLite's additional ASCII case folding is
the identity and is omitted.  The fuel argument only forces structural
recursion; `likeMatch` supplies enough fuel for it never to run out. -/
def likeMatchF : Nat → List Char → List Char → Bool
  | 0, _, _ => false
  | _ + 1, [], [] => true
  | _ + 1, [], _ :: _ => false
  | f + 1, pc :: ps, [] => if pc = '%' then likeMatchF f ps [] else false
  | f + 1, pc :: ps, c :: s2 =>
    if pc = '%' then likeMatchF f ps (c :: s2) || likeMatchF f (pc :: ps) s2
    else if pc = '_' then likeMatchF f ps s2
    else (pc = c) && likeMatchF f ps s2

/-- SQL `LIKE` pattern match of pattern `p` against text `s`. -/
def likeMatch (p s : List Char) : Bool := likeMatchF (p.length + s.length + 1) p s

/-- The pattern `f"%{query}%"` that `Database.find_games` interpolates. -/
def likePattern (query : String) : List Char := '%' :: (query.data ++ ['%'])

/-! ### Association-list helpers (model of keyed SQL tables) -/

/-- Lookup in an association list (first matching key, like a keyed row). -/
def assocGet {κ β : Type} [DecidableEq κ] : List (κ × β) → κ → Option β
  | [], _ => none
  | p :: t, k => if p.1 = k then some p.2 else assocGet t k

/-- Insert-or-replace in an association list: the model of
`INSERT ... ON CONFLICT(key) DO UPDATE`, which updates the existing row in
place or appends a fresh one. -/
def assocSet {κ β : Type} [DecidableEq κ] : List (κ × β) → κ → β → List (κ × β)
  | [], k, v => [(k, v)]
  | p :: t, k, v => if p.1 = k then (k, v) :: t else p :: assocSet t k v

/-- Insertion step for `sortWith`. -/
def insertOrd {α : Type} (le : α → α → Bool) (x : α) : List α → List α
  | [] => [x]
  | y :: t => if le x y then x :: y :: t else y :: insertOrd le x t

/-- Insertion sort; models SQL `ORDER BY` and Python `sorted`. -/
def sortWith {α : Type} (le : α → α → Bool) : List α → List α
  | [] => []
  | y :: t => insertOrd le y (sortWith le t)

/-! ### Data model (rows of `db/schema.sql`) -/

/-- Row of the `games` table (`created_at` / `updated_at` bookkeeping is not
externally observable and is omitted; `alt_names_json` always holds
`json.dumps` of the list written by `upsert_game`, so the list itself is
stored and the serialised form is recomputed by `dumpsList` where the SQL
consults the column). -/
structure GameRow where
  igdb_id : Int
  name : String
  alt_names : List String
  first_release_year : Option Int
deriving DecidableEq

/-- Primary key of the `catalog_items` table. -/
structure CatKey where
  service : String
  igdb_id : Int
  region : String
deriving DecidableEq

/-- Non-key attributes of a `catalog_items` row (`platforms_json` stores
`json.dumps` of the list handed to `upsert_catalog_item`, kept as the list). -/
structure CatalogRow where
  service_title : String
  platforms : List String
  tier : Option String
  last_seen_at : Nat
  first_seen_at : Nat
deriving DecidableEq

/-- Record shape built by `_remote_search` and stored by
`cache_igdb_payload` (the `igdb_cache` payload). -/
structure Record where
  igdb_id : Int
  name : String
  alt_names : List String
  first_release_year : Option Int
deriving DecidableEq

/-- The three tables of the SQLite database. -/
structure DbState where
  games : List GameRow
  igdb_cache : List (String × Record)
  catalog : List (CatKey × CatalogRow)
deriving DecidableEq

/-- Replace-or-append for the `games` table keyed by `igdb_id`. -/
def upsertGameRow (g : GameRow) : List GameRow → List GameRow
  | [] => [g]
  | h :: t => if h.igdb_id = g.igdb_id then g :: t else h :: upsertGameRow g t

/-! ### `api/app/database.py` -/

/-- `Database.upsert_game`: insert or update-in-place keyed by `igdb_id`. -/
def upsert_game (db : DbState) (igdb_id : Int) (name : String)
    (alt_names : List String) (first_release_year : Option Int) : DbState :=
  { db with games := upsertGameRow ⟨igdb_id, name, alt_names, first_release_year⟩ db.games }

/-- `Database.get_game`: point lookup by `igdb_id`. -/
def get_game (db : DbState) (igdb_id : Int) : Option GameRow :=
  db.games.find? (fun g => g.igdb_id = igdb_id)

/-- `Database.find_games`: rows whose `lower(name)` or `lower(alt_names_json)`
matches `LIKE '%' + query.lower() + '%'`, ordered by `name ASC`, first
`limit` rows. -/
def find_games (db : DbState) (query : String) (limit : Nat) : List GameRow :=
  let pat := likePattern (strLower query)
  (sortWith (fun a b => strLe a.name b.name)
    (db.games.filter (fun g =>
      likeMatch pat (strLower g.name).data ||
      likeMatch pat (strLower (dumpsList g.alt_names)).data))).take limit

/-- `Database.get_catalog_by_igdb`: all service rows of one game in one
region (rows carry their key, as the SQL selects the key columns too). -/
def get_catalog_by_igdb (db : DbState) (igdb_id : Int) (region : String) :
    List (CatKey × CatalogRow) :=
  db.catalog.filter (fun p => p.1.igdb_id = igdb_id ∧ p.1.region = region)

/-- `Database.upsert_catalog_item`: read any existing row's `first_seen_at`
for the key, then write the row with `last_seen_at = seen_at` and
`first_seen_at` = the existing value if a row existed, else `seen_at`. -/
def upsert_catalog_item (db : DbState) (service : String) (igdb_id : Int)
    (service_title : String) (platforms : List String) (tier : Option String)
    (region : String) (seen_at : Nat) : DbState :=
  let k : CatKey := ⟨service, igdb_id, region⟩
  let first_seen_at :=
    match assocGet db.catalog k with
    | some row => row.first_seen_at
    | none => seen_at
  { db with catalog :=
      assocSet db.catalog k ⟨service_title, platforms, tier, seen_at, first_seen_at⟩ }

/-- `Database.cache_igdb_payload`: store the payload keyed by the
lower-cased name, latest write wins. -/
def cache_igdb_payload (db : DbState) (name : String) (payload : Record) : DbState :=
  { db with igdb_cache := assocSet db.igdb_cache (strLower name) payload }

/-- `Database.get_cached_igdb`: lookup by lower-cased name. -/
def get_cached_igdb (db : DbState) (name : String) : Option Record :=
  assocGet db.igdb_cache (strLower name)

/-! ### `api/app/igdb_client.py` -/

/-- Outcome of one `_remote_search` attempt: `fail` stands for any raised
exception (missing credentials, transport error, non-2xx), `ok rs` for a
successful response already decoded to records. -/
inductive RemoteResult where
  | fail
  | ok (records : List Record)
deriving DecidableEq

/-- The remote IGDB search as an oracle from the (stripped) query text. -/
abbrev RemoteApi := String → RemoteResult

/-- `_serialise_cached`: a stored game row rendered as a result record (the
`alt_names_json` round-trip is the identity on rows written by
`upsert_game`). -/
def serialise_cached (g : GameRow) : Record :=
  ⟨g.igdb_id, g.name, g.alt_names, g.first_release_year⟩

/-- `_fallback_search`: local substring lookup over the Identity Store.  The
`RuntimeError` branch (uninitialised database handle) cannot arise in the
model, where a `DbState` always exists. -/
def fallback_search (db : DbState) (query : String) (limit : Nat) : List Record :=
  (find_games db query limit).map serialise_cached

/-- Write-back step of `search_games` for one successful remote record: the
Identity Store upsert plus the payload cache write (the per-record exception
handler only swallows storage errors, which the model's total stores never
raise). -/
def cacheRemoteRecord (db : DbState) (r : Record) : DbState :=
  cache_igdb_payload (upsert_game db r.igdb_id r.name r.alt_names r.first_release_year)
    r.name r

/-- `search_games(query, limit)`.  Returns the result list, the database
after any write-backs, and the number of remote search calls issued (0 or
1). -/
def search_games (api : RemoteApi) (query : String) (limit : Nat) (db : DbState) :
    List Record × DbState × Nat :=
  let q := strTrim query
  if q = "" then ([], db, 0)
  else
    let remote_results :=
      match api q with
      | RemoteResult.fail => []
      | RemoteResult.ok rs => rs
    let db1 := remote_results.foldl cacheRemoteRecord db
    let results :=
      if remote_results.isEmpty then fallback_search db1 q limit else remote_results
    (results.take limit, db1, 1)

/-- `ensure_game_from_catalog`: create-if-absent in the Identity Store with
the catalog title doubling as the single alternate name. -/
def ensure_game_from_catalog (db : DbState) (name : String) (igdb_id : Int)
    (first_release_year : Option Int) : DbState :=
  match get_game db igdb_id with
  | some _ => db
  | none => upsert_game db igdb_id name [name] first_release_year

/-! ### `api/app/fetchers/gamepass.py` -/

/-- Loosely-typed JSON value as the Game Pass feed entries carry it. -/
inductive JVal where
  | s (v : String)
  | b (v : Bool)
  | n (v : Int)
  | arr (vs : List JVal)

/-- One feed entry: a JSON object, modelled as an association list. -/
abbrev Entry := List (String × JVal)

/-- `entry.get(key)`. -/
def entryGet (e : Entry) (k : String) : Option JVal := assocGet e k

/-- Python truthiness of an optional JSON value (`None`, `""`, `False`, `0`
and `[]` are falsy). -/
def jTruthy : Option JVal → Bool
  | none => false
  | some (JVal.s v) => !(v = "")
  | some (JVal.b v) => v
  | some (JVal.n v) => !(v = 0)
  | some (JVal.arr vs) => !vs.isEmpty

/-- Python `int(value)` over a JSON value: ints pass through, booleans map
to 0/1, decimal strings parse, anything else raises (modelled `none`). -/
def jToInt : JVal → Option Int
  | JVal.n v => some v
  | JVal.s v => parseIntStr v
  | JVal.b v => some (if v then 1 else 0)
  | JVal.arr _ => none

/-- The literal token table of `_normalise_platform_token`. -/
def platformMapping : List (String × String) :=
  [("pc", "pc"), ("windows", "pc"), ("win", "pc"), ("pc game pass", "pc"),
   ("xbox", "console"), ("console", "console"), ("xbox console", "console"),
   ("xbox game pass", "console"), ("xbox one", "console"),
   ("xbox series", "console"), ("cloud", "cloud"), ("cloud gaming", "cloud"),
   ("xcloud", "cloud")]

/-- `_normalise_platform_token`: strip and lower-case, consult the token
table, then the substring heuristics, else pass the lowered token through. -/
def normalise_platform_token (token : String) : Option String :=
  let lowered := strLower (strTrim token)
  if lowered = "" then none
  else
    match assocGet platformMapping lowered with
    | some v => some v
    | none =>
      if substrS "cloud" lowered then some "cloud"
      else if substrS "pc" lowered || substrS "windows" lowered then some "pc"
      else if substrS "xbox" lowered || substrS "console" lowered then some "console"
      else some lowered

/-- Membership-checked append: the model of `set.add` under the later
deterministic ordering (membership tests and `sorted` do not depend on the
insertion order kept here). -/
def addPlat (ps : List String) (x : String) : List String :=
  if x ∈ ps then ps else ps ++ [x]

/-- Platform tokens contributed by one of the three list-valued fields: a
bare string is treated as a one-element list, a list contributes each of its
string items, other shapes contribute nothing. -/
def platformsFromList (ps : List String) (v : Option JVal) : List String :=
  match v with
  | some (JVal.s str1) =>
    match normalise_platform_token str1 with
    | some n1 => addPlat ps n1
    | none => ps
  | some (JVal.arr items) =>
    items.foldl (fun acc it =>
      match it with
      | JVal.s str1 =>
        match normalise_platform_token str1 with
        | some n1 => addPlat acc n1
        | none => acc
      | _ => acc) ps
  | _ => ps

/-- The boolean-flag table of `_extract_platforms`, in source order. -/
def boolMappings : List (String × String) :=
  [("isConsole", "console"), ("isXbox", "console"), ("isPc", "pc"),
   ("isPC", "pc"), ("isCloud", "cloud"), ("cloudEnabled", "cloud"),
   ("console", "console"), ("pc", "pc"), ("cloud", "cloud")]

/-- Truthy boolean flag: a real `True`, or one of the strings
`"true"/"yes"/"1"` case-insensitively. -/
def boolTrue : Option JVal → Bool
  | some (JVal.b v) => v
  | some (JVal.s v) => strLower v = "true" || strLower v = "yes" || strLower v = "1"
  | _ => false

/-- `_extract_platforms`: union the list fields, the boolean flags and (only
if still empty) the notes text, then emit `console, pc, cloud` first and the
remaining tokens in sorted order. -/
def extract_platforms (e : Entry) : List String :=
  let ps1 := platformsFromList (platformsFromList (platformsFromList []
    (entryGet e "platforms")) (entryGet e "availableOn")) (entryGet e "availability")
  let ps2 := boolMappings.foldl
    (fun acc kv => if boolTrue (entryGet e kv.1) then addPlat acc kv.2 else acc) ps1
  let ps3 :=
    if ps2.isEmpty then
      match (if jTruthy (entryGet e "platformNotes") then entryGet e "platformNotes"
             else entryGet e "notes") with
      | some (JVal.s v) =>
        match normalise_platform_token v with
        | some n1 => [n1]
        | none => []
      | _ => []
    else ps2
  let ordered := ["console", "pc", "cloud"].filter (fun t => t ∈ ps3)
  ordered ++ (sortWith strLe ps3).filter (fun t => t ∉ ordered)

/-- Fuel-indexed scanner behind `_extract_year`; the fuel only forces
structural recursion. -/
def extractYearGo : Nat → Int → List Char → Option Int
  | 0, _, _ => none
  | f + 1, nowYear, cs =>
    match cs with
    | c1 :: c2 :: c3 :: c4 :: rest2 =>
      if ((c1 = '1' ∧ c2 = '9') ∨ (c1 = '2' ∧ c2 = '0')) ∧ isDigitB c3 ∧ isDigitB c4 then
        let y : Int := (if c1 = '1' then (1900 : Int) else 2000) +
          ((c3.toNat - 48) * 10 + (c4.toNat - 48) : Nat)
        if 1970 ≤ y ∧ y ≤ nowYear then some y else extractYearGo f nowYear rest2
      else extractYearGo f nowYear (c2 :: c3 :: c4 :: rest2)
    | _ => none

/-- `_extract_year`: first non-overlapping `(19|20)\d\d` match that lies in
`[1970, current year]`; the current year is passed in explicitly. -/
def extract_year (nowYear : Int) (s : String) : Option Int :=
  extractYearGo s.data.length nowYear s.data

/-- Release-year probe over the four date keys, in source order: an
int-in-range wins, a string is scanned with `_extract_year`, everything else
falls through to the next key. -/
def yearFromKeys (nowYear : Int) (e : Entry) : List String → Option Int
  | [] => none
  | k :: ks =>
    match entryGet e k with
    | some (JVal.n v) =>
      if 1970 ≤ v ∧ v ≤ nowYear then some v else yearFromKeys nowYear e ks
    | some (JVal.b v) =>
      if 1970 ≤ (if v then (1 : Int) else 0) ∧ (if v then (1 : Int) else 0) ≤ nowYear
      then some (if v then 1 else 0) else yearFromKeys nowYear e ks
    | some (JVal.s v) =>
      match extract_year nowYear v with
      | some y => some y
      | none => yearFromKeys nowYear e ks
    | _ => yearFromKeys nowYear e ks

/-- The release-year extraction of `refresh_gamepass_us`. -/
def entryReleaseYear (nowYear : Int) (e : Entry) : Option Int :=
  yearFromKeys nowYear e ["releaseDate", "release_date", "firstReleaseDate", "first_release_date"]

/-- Title extraction of `refresh_gamepass_us`:
`entry.get("title") or entry.get("name")`, kept only when it is a string
with non-blank content. -/
def entryTitle (e : Entry) : Option String :=
  match (if jTruthy (entryGet e "title") then entryGet e "title" else entryGet e "name") with
  | some (JVal.s v) => if strTrim v = "" then none else some v
  | _ => none

/-- Inline IGDB id: the first of `igdbId`, `igdb_id`, `igdb` that converts
with `int(...)`. -/
def firstIntFrom (e : Entry) : List String → Option Int
  | [] => none
  | k :: ks =>
    match entryGet e k with
    | none => firstIntFrom e ks
    | some v =>
      match jToInt v with
      | some i => some i
      | none => firstIntFrom e ks

/-- Inline IGDB id with Python falsiness applied (`if not igdb_id` treats 0
like a missing id). -/
def entryInlineId (e : Entry) : Option Int :=
  match firstIntFrom e ["igdbId", "igdb_id", "igdb"] with
  | some i => if i = 0 then none else some i
  | none => none

/-- Process-wide resolver state: the database plus the in-process memo
`_igdb_lookup_cache`, whose values are `Optional[int]` (a stored `none` is
the "no match" marker). -/
structure AppState where
  db : DbState
  memo : List (String × Option Int)
deriving DecidableEq

/-- `_resolve_igdb_id(title)`.  Returns the optional id, the state after the
call, and the number of remote search calls issued.  The memo read is
`dict.get`, which collapses a stored `None` and a missing key to the same
value — exactly `Option.join` of the association lookup. -/
def resolve_igdb_id (api : RemoteApi) (title : String) (st : AppState) :
    Option Int × AppState × Nat :=
  let key := strLower title
  match (assocGet st.memo key).join with
  | some i => (some i, st, 0)
  | none =>
    match get_cached_igdb st.db title with
    | some payload =>
      (some payload.igdb_id,
       { st with memo := assocSet st.memo key (some payload.igdb_id) }, 0)
    | none =>
      let out := search_games api title 1 st.db
      match out.1 with
      | [] => (none, { db := out.2.1, memo := assocSet st.memo key none }, out.2.2)
      | r :: _ =>
        (some r.igdb_id,
         { db := out.2.1, memo := assocSet st.memo key (some r.igdb_id) }, out.2.2)

/-- Environment of one `refresh_gamepass_us` run: the remote search oracle,
the per-key SQLite failure oracle for the membership upsert (an exception the
loop catches), and the observation time (`datetime.utcnow()` taken once, and
its year for the date heuristics). -/
structure GpEnv where
  api : RemoteApi
  upsertFails : CatKey → Bool
  now : Nat
  nowYear : Int

/-- Tail of the `refresh_gamepass_us` loop body once a title and a non-zero
IGDB id are in hand: ensure the game exists, then attempt the membership
upsert, counting it only when the store write succeeds. -/
def processResolved (env : GpEnv) (region : String) (st : AppState) (e : Entry)
    (title : String) (igdb_id : Int) : AppState × Bool :=
  let db2 := ensure_game_from_catalog st.db title igdb_id (entryReleaseYear env.nowYear e)
  if env.upsertFails ⟨"gamepass", igdb_id, region⟩ then ({ st with db := db2 }, false)
  else
    let db3 := upsert_catalog_item db2 "gamepass" igdb_id title (extract_platforms e) none region env.now
    ({ st with db := db3 }, true)

/-- One iteration of the `refresh_gamepass_us` loop over an already-fetched,
already-deduplicated entry (the HTTP pagination of `_iter_api_entries` is
environmental and outside the store model).  The returned flag says whether
the entry was counted as inserted. -/
def processEntry (env : GpEnv) (region : String) (st : AppState) (e : Entry) :
    AppState × Bool :=
  match entryTitle e with
  | none => (st, false)
  | some title =>
    match entryInlineId e with
    | some i => processResolved env region st e title i
    | none =>
      let res := resolve_igdb_id env.api title st
      match res.1 with
      | none => (res.2.1, false)
      | some i =>
        if i = 0 then (res.2.1, false)
        else processResolved env region res.2.1 e title i

/-- `refresh_gamepass_us` over the fetched entry stream: the running
inserted count plus the final state. -/
def refresh_gamepass_us (env : GpEnv) (region : String) :
    List Entry → AppState → Nat × AppState
  | [], st => (0, st)
  | e :: es, st =>
    let step := processEntry env region st e
    let rest := refresh_gamepass_us env region es step.1
    ((if step.2 then 1 else 0) + rest.1, rest.2)

/-! ### `api/app/fetchers/mock_gamepass.py` and the `/refresh` handler -/

/-- One fixture entry.  A `none` field stands for a missing key or a value
`int(...)` rejects: accessing it raises (`KeyError` / `ValueError` /
`TypeError`), which `refresh_mock_gamepass` does not catch. -/
structure MockEntry where
  igdb_id : Option Int
  name : Option String
  service_title : Option String
  first_release_year : Option Int
  platforms : List String
deriving DecidableEq

/-- Loop of `refresh_mock_gamepass`: every well-formed entry is upserted and
counted; a malformed entry raises out of the whole function (the model
reports the error without the partially-updated store, which the claims do
not consult on this path). -/
def refresh_mock_entries (now : Nat) (region : String) :
    List MockEntry → DbState → Except Unit (Nat × DbState)
  | [], db => Except.ok (0, db)
  | e :: es, db =>
    match e.igdb_id, e.name, e.service_title with
    | some igdb_id, some name, some stitle =>
      let db1 := ensure_game_from_catalog db name igdb_id e.first_release_year
      let db2 := upsert_catalog_item db1 "gamepass" igdb_id stitle e.platforms none region now
      (refresh_mock_entries now region es db2).map (fun p => (p.1 + 1, p.2))
    | _, _, _ => Except.error ()

/-- `refresh_mock_gamepass`: a missing fixture file raises
`FileNotFoundError` before any entry is processed. -/
def refresh_mock_gamepass (fixture : Option (List MockEntry)) (now : Nat)
    (region : String) (db : DbState) : Except Unit (Nat × DbState) :=
  match fixture with
  | none => Except.error ()
  | some entries => refresh_mock_entries now region entries db

/-- Response envelope of the `/refresh` handler. -/
structure Envelope where
  status : String
  counts : List (String × Nat)
deriving DecidableEq

/-- The `POST /refresh` handler: short-circuits when mock data is disabled,
otherwise runs `refresh_mock_gamepass` with no exception handling, so any
error it raises propagates out of the handler. -/
def refresh_endpoint (mockEnabled : Bool) (fixture : Option (List MockEntry))
    (now : Nat) (db : DbState) : Except Unit (Envelope × DbState) :=
  if mockEnabled = false then Except.ok (⟨"ok", []⟩, db)
  else
    (refresh_mock_gamepass fixture now "US" db).map
      (fun p => (⟨"ok", [("gamepass", p.1)]⟩, p.2))

/-! ### Derived notions used by the claims -/

/-- The invariant of §3 of the design: every stored membership row satisfies
`first_seen_at ≤ last_seen_at`. -/
def catalogInvariant (db : DbState) : Prop :=
  ∀ p ∈ db.catalog, p.2.first_seen_at ≤ p.2.last_seen_at

instance catalogInvariantDec (db : DbState) : Decidable (catalogInvariant db) :=
  inferInstanceAs (Decidable (∀ p ∈ db.catalog, p.2.first_seen_at ≤ p.2.last_seen_at))

/-- N sequential `upsert_catalog_item` calls on one key with the given
observation times. -/
def upsertSeq (db : DbState) (service : String) (igdb_id : Int)
    (service_title : String) (platforms : List String) (tier : Option String)
    (region : String) (ts : List Nat) : DbState :=
  ts.foldl (fun d t => upsert_catalog_item d service igdb_id service_title platforms tier region t) db

/-- Case-insensitive-substring row match: the reading of `find_games` that
the specification text asserts (query contained in the name or in the
serialised alternate names). -/
def substrMatchP (query : String) (g : GameRow) : Prop :=
  (strLower query).data <:+: (strLower g.name).data ∨
  (strLower query).data <:+: (strLower (dumpsList g.alt_names)).data

instance substrMatchPDec (q : String) (g : GameRow) : Decidable (substrMatchP q g) :=
  inferInstanceAs (Decidable
    ((strLower q).data <:+: (strLower g.name).data ∨
     (strLower q).data <:+: (strLower (dumpsList g.alt_names)).data))

/-- Wildcard-free queries: no character is one of the `LIKE`
metacharacters. -/
def noWildcards (s : String) : Prop := ∀ c ∈ s.data, c ≠ '%' ∧ c ≠ '_'

instance noWildcardsDec (s : String) : Decidable (noWildcards s) :=
  inferInstanceAs (Decidable (∀ c ∈ s.data, c ≠ '%' ∧ c ≠ '_'))

/-! ### Concrete states used by the claim theorems, counterexamples and
witnesses -/

/-- A freshly initialised, empty database. -/
def emptyDb : DbState := ⟨[], [], []⟩

/-- Fresh process state: empty database and empty resolver memo. -/
def emptyApp : AppState := ⟨emptyDb, []⟩

/-- One catalog row sighted at time 5 (counterexample input). -/
def c1stA : DbState :=
  upsert_catalog_item emptyDb "gamepass" 1020 "Halo Infinite" ["console"] none "US" 5

/-- The same key upserted again with the earlier observation time 3. -/
def c1stB : DbState :=
  upsert_catalog_item c1stA "gamepass" 1020 "Halo Infinite" ["console"] none "US" 3

/-- One catalog row sighted at time 1 (witness input). -/
def c1stW : DbState :=
  upsert_catalog_item emptyDb "gamepass" 1020 "Halo Infinite" ["console"] none "US" 1

/-- Remote oracle whose search always succeeds with zero matches. -/
def c2api : RemoteApi := fun _ => RemoteResult.ok []

/-- First resolver call for an unmatched title on a fresh state. -/
def c2run1 : Option Int × AppState × Nat :=
  resolve_igdb_id c2api "Ghost Of Nowhere" emptyApp

/-- Second resolver call for the same title on the state the first left. -/
def c2run2 : Option Int × AppState × Nat :=
  resolve_igdb_id c2api "Ghost Of Nowhere" c2run1.2.1

/-- A key already sighted at time 0, before the claimed sequence starts. -/
def c3stPre : DbState :=
  upsert_catalog_item emptyDb "gamepass" 7 "Old Title" [] none "US" 0

/-- The pre-existing key after the sequential upserts at times 1 and 2. -/
def c3stPost : DbState := upsertSeq c3stPre "gamepass" 7 "Old Title" [] none "US" [1, 2]

/-- A well-formed fixture entry. -/
def c4entryW : MockEntry := ⟨some 7, some "Halo", some "Halo", none, ["console"]⟩

/-- Remote oracle that always raises (service unreachable). -/
def apiDown : RemoteApi := fun _ => RemoteResult.fail

/-- An Identity Store already holding one cached game. -/
def haloDb : DbState := ⟨[⟨1020, "Halo Infinite", [], some 2021⟩], [], []⟩

/-- Driver environment whose membership upsert always raises. -/
def c6env : GpEnv := ⟨fun _ => RemoteResult.ok [], fun _ => true, 10, 2026⟩

/-- A well-formed feed entry with an inline IGDB id. -/
def c6entry : Entry := [("title", JVal.s "Halo Infinite"), ("igdbId", JVal.n 1020)]

/-- Store with one game named "abc" (wildcard counterexample input). -/
def c9db : DbState := ⟨[⟨1, "abc", [], none⟩], [], []⟩

/-- The single row of `c9db`. -/
def c9row : GameRow := ⟨1, "abc", [], none⟩

/-! ### Association-list lemmas -/

theorem assocGet_set_self {κ β : Type} [DecidableEq κ] (l : List (κ × β)) (k : κ) (v : β) :
    assocGet (assocSet l k v) k = some v := by
  induction l with
  | nil => simp [assocGet, assocSet]
  | cons p t ih =>
    by_cases h : p.1 = k
    · simp [assocSet, h, assocGet]
    · simp [assocSet, h, assocGet, ih]

theorem mem_assocSet {κ β : Type} [DecidableEq κ] {l : List (κ × β)} {k : κ} {v : β}
    {p : κ × β} (hp : p ∈ assocSet l k v) : p = (k, v) ∨ p ∈ l := by
  induction l with
  | nil => simpa [assocSet] using hp
  | cons q t ih =>
    by_cases h : q.1 = k
    · rw [assocSet, if_pos h] at hp
      rcases List.mem_cons.mp hp with h1 | h1
      · exact Or.inl h1
      · exact Or.inr (List.mem_cons.mpr (Or.inr h1))
    · rw [assocSet, if_neg h] at hp
      rcases List.mem_cons.mp hp with h1 | h1
      · exact Or.inr (List.mem_cons.mpr (Or.inl h1))
      · rcases ih h1 with h2 | h2
        · exact Or.inl h2
        · exact Or.inr (List.mem_cons.mpr (Or.inr h2))

theorem assocSet_assocSet {κ β : Type} [DecidableEq κ] (l : List (κ × β)) (k : κ) (v : β) :
    assocSet (assocSet l k v) k v = assocSet l k v := by
  induction l with
  | nil => simp [assocSet]
  | cons p t ih =>
    by_cases h : p.1 = k
    · simp [assocSet, h]
    · simp [assocSet, h, ih]

theorem assocGet_mem {κ β : Type} [DecidableEq κ] {l : List (κ × β)} {k : κ} {v : β}
    (h : assocGet l k = some v) : (k, v) ∈ l := by
  induction l with
  | nil => simp [assocGet] at h
  | cons p t ih =>
    by_cases h1 : p.1 = k
    · rw [assocGet, if_pos h1] at h
      have : p = (k, v) := by
        cases p
        cases h1
        cases h
        rfl
      exact this ▸ List.mem_cons_self _ _
    · rw [assocGet, if_neg h1] at h
      exact List.mem_cons.mpr (Or.inr (ih h))

/-! ### Claims C1, C3, C7: the catalog upsert -/

/-- C7: Re-running the upsert with identical arguments is idempotent: the
second call finds the row the first wrote, keeps its `first_seen_at`, and
rewrites the identical row in place, leaving the whole database equal and in
particular creating no duplicate row. -/
theorem upsert_catalog_item_idempotent (db : DbState) (service : String) (igdb_id : Int)
    (service_title : String) (platforms : List String) (tier : Option String)
    (region : String) (seen_at : Nat) :
    upsert_catalog_item
      (upsert_catalog_item db service igdb_id service_title platforms tier region seen_at)
      service igdb_id service_title platforms tier region seen_at =
    upsert_catalog_item db service igdb_id service_title platforms tier region seen_at := by
  unfold upsert_catalog_item
  cases h : assocGet db.catalog ⟨service, igdb_id, region⟩ with
  | none => simp [h, assocGet_set_self, assocSet_assocSet]
  | some row => simp [h, assocGet_set_self, assocSet_assocSet]

/-- C1 (counterexample): the state after one sighting at time 5 satisfies
the `first_seen_at ≤ last_seen_at` invariant, but a further upsert of the
same key with the earlier observation time 3 breaks it: the written row
keeps `first_seen_at = 5` while `last_seen_at` becomes 3.  The claim's
unconditional preservation is therefore false. -/
theorem upsert_catalog_item_invariant_cx :
    catalogInvariant c1stA ∧ ¬ catalogInvariant c1stB := by
  constructor
  · decide
  · decide

/-- C1 (amended): an `upsert_catalog_item` call preserves the
`first_seen_at ≤ last_seen_at` invariant provided the observation time is
not earlier than the existing row's `first_seen_at` (as holds when
observation times never decrease) — first conjunct, whose hypotheses scope
over it alone; unconditionally — second conjunct, hypothesis-free — when a
row for the key exists, the written row keeps the existing `first_seen_at`,
sets `last_seen_at := seen_at` and replaces the attribute fields. -/
theorem upsert_catalog_item_invariant (db : DbState) (service : String) (igdb_id : Int)
    (service_title : String) (platforms : List String) (tier : Option String)
    (region : String) (seen_at : Nat) :
    ((∀ p ∈ db.catalog, p.1 = (⟨service, igdb_id, region⟩ : CatKey) →
        p.2.first_seen_at ≤ seen_at) →
      catalogInvariant db →
      catalogInvariant
        (upsert_catalog_item db service igdb_id service_title platforms tier region seen_at)) ∧
    ∀ row, assocGet db.catalog ⟨service, igdb_id, region⟩ = some row →
      assocGet
        (upsert_catalog_item db service igdb_id service_title platforms tier region seen_at).catalog
        ⟨service, igdb_id, region⟩ =
      some ⟨service_title, platforms, tier, seen_at, row.first_seen_at⟩ := by
  constructor
  · intro hmono hinv p hp
    cases h : assocGet db.catalog ⟨service, igdb_id, region⟩ with
    | none =>
      simp only [upsert_catalog_item, h] at hp
      rcases mem_assocSet hp with h1 | h1
      · rw [h1]
      · exact hinv p h1
    | some row =>
      simp only [upsert_catalog_item, h] at hp
      rcases mem_assocSet hp with h1 | h1
      · rw [h1]
        exact hmono (⟨service, igdb_id, region⟩, row) (assocGet_mem h) rfl
      · exact hinv p h1
  · intro row hrow
    unfold upsert_catalog_item
    simp [hrow, assocGet_set_self]

/-- C1 (witness): on a store whose row was first seen at time 1, an upsert
at time 2 keeps the invariant; and at the regressing input (row first seen
at 5, upsert at 3, i.e. `c1stB`) the written row still keeps
`first_seen_at = 5` while `last_seen_at` becomes 3, exercising the
unconditional preservation conjunct. -/
theorem upsert_catalog_item_invariant_witness :
    catalogInvariant
      (upsert_catalog_item c1stW "gamepass" 1020 "Halo Infinite" ["console"] none "US" 2) ∧
    assocGet c1stB.catalog ⟨"gamepass", 1020, "US"⟩ =
      some ⟨"Halo Infinite", ["console"], none, 3, 5⟩ :=
  ⟨(upsert_catalog_item_invariant c1stW "gamepass" 1020 "Halo Infinite" ["console"] none
      "US" 2).1 (by decide) (by decide),
   (upsert_catalog_item_invariant c1stA "gamepass" 1020 "Halo Infinite" ["console"] none
      "US" 3).2 ⟨"Halo Infinite", ["console"], none, 5, 5⟩ (by decide)⟩

theorem upsertSeq_cons (db : DbState) (service : String) (igdb_id : Int)
    (service_title : String) (platforms : List String) (tier : Option String)
    (region : String) (t : Nat) (ts : List Nat) :
    upsertSeq db service igdb_id service_title platforms tier region (t :: ts) =
    upsertSeq (upsert_catalog_item db service igdb_id service_title platforms tier region t)
      service igdb_id service_title platforms tier region ts := rfl

theorem upsertSeq_tracks (service : String) (igdb_id : Int) (service_title : String)
    (platforms : List String) (tier : Option String) (region : String) :
    ∀ (ts : List Nat) (t : Nat) (db : DbState) (r : CatalogRow),
      assocGet db.catalog ⟨service, igdb_id, region⟩ = some r →
      assocGet
        (upsertSeq db service igdb_id service_title platforms tier region (t :: ts)).catalog
        ⟨service, igdb_id, region⟩ =
      some ⟨service_title, platforms, tier, (t :: ts).getLast (List.cons_ne_nil t ts),
        r.first_seen_at⟩ := by
  intro ts
  induction ts with
  | nil =>
    intro t db r h
    rw [upsertSeq_cons]
    show assocGet
      (upsert_catalog_item db service igdb_id service_title platforms tier region t).catalog
      ⟨service, igdb_id, region⟩ = _
    unfold upsert_catalog_item
    simp [h, assocGet_set_self]
  | cons t2 ts ih =>
    intro t db r h
    rw [upsertSeq_cons]
    have hstep : assocGet
        (upsert_catalog_item db service igdb_id service_title platforms tier region t).catalog
        ⟨service, igdb_id, region⟩ =
        some ⟨service_title, platforms, tier, t, r.first_seen_at⟩ := by
      unfold upsert_catalog_item
      simp [h, assocGet_set_self]
    have := ih t2
      (upsert_catalog_item db service igdb_id service_title platforms tier region t)
      ⟨service_title, platforms, tier, t, r.first_seen_at⟩ hstep
    rw [this]
    rw [List.getLast_cons (List.cons_ne_nil t2 ts)]

/-- C3 (counterexample): with a row for the key already present (first seen
at time 0), the sequence of upserts at times 1 then 2 leaves
`first_seen_at = 0`, not `t1 = 1`, refuting the claim's "regardless of
whether the row existed before t1"; `last_seen_at` does become `tN = 2`. -/
theorem upsertSeq_first_seen_cx :
    (assocGet c3stPost.catalog ⟨"gamepass", 7, "US"⟩).map CatalogRow.first_seen_at = some 0 ∧
    ¬ ((assocGet c3stPost.catalog ⟨"gamepass", 7, "US"⟩).map CatalogRow.first_seen_at = some 1) ∧
    (assocGet c3stPost.catalog ⟨"gamepass", 7, "US"⟩).map CatalogRow.last_seen_at = some 2 := by
  refine ⟨by decide, by decide, by decide⟩

/-- C3 (amended): after sequential upserts at strictly increasing times
`t1 < ... < tN` the stored `last_seen_at` is `tN`; the stored
`first_seen_at` is `t1` when no row for the key existed before the sequence,
and is the pre-existing row's `first_seen_at` when one did. -/
theorem upsertSeq_first_last (db : DbState) (service : String) (igdb_id : Int)
    (service_title : String) (platforms : List String) (tier : Option String)
    (region : String) (t : Nat) (ts : List Nat)
    (hchain : List.Chain' (· < ·) (t :: ts)) :
    ((assocGet
        (upsertSeq db service igdb_id service_title platforms tier region (t :: ts)).catalog
        ⟨service, igdb_id, region⟩).map CatalogRow.last_seen_at =
      some ((t :: ts).getLast (List.cons_ne_nil t ts))) ∧
    (assocGet db.catalog ⟨service, igdb_id, region⟩ = none →
      (assocGet
        (upsertSeq db service igdb_id service_title platforms tier region (t :: ts)).catalog
        ⟨service, igdb_id, region⟩).map CatalogRow.first_seen_at = some t) ∧
    (∀ r, assocGet db.catalog ⟨service, igdb_id, region⟩ = some r →
      (assocGet
        (upsertSeq db service igdb_id service_title platforms tier region (t :: ts)).catalog
        ⟨service, igdb_id, region⟩).map CatalogRow.first_seen_at = some r.first_seen_at) := by
  have hfull : ∀ r0 : CatalogRow,
      assocGet db.catalog ⟨service, igdb_id, region⟩ = some r0 ∨
        (assocGet db.catalog ⟨service, igdb_id, region⟩ = none ∧ r0.first_seen_at = t) →
      assocGet
        (upsertSeq db service igdb_id service_title platforms tier region (t :: ts)).catalog
        ⟨service, igdb_id, region⟩ =
      some ⟨service_title, platforms, tier, (t :: ts).getLast (List.cons_ne_nil t ts),
        r0.first_seen_at⟩ := by
    intro r0 h0
    cases ts with
    | nil =>
      rw [upsertSeq_cons]
      show assocGet
        (upsert_catalog_item db service igdb_id service_title platforms tier region t).catalog
        ⟨service, igdb_id, region⟩ = _
      unfold upsert_catalog_item
      rcases h0 with h | ⟨h, hf⟩
      · simp [h, assocGet_set_self]
      · simp [h, assocGet_set_self, hf]
    | cons t2 ts2 =>
      rw [upsertSeq_cons]
      have hstep : assocGet
          (upsert_catalog_item db service igdb_id service_title platforms tier region t).catalog
          ⟨service, igdb_id, region⟩ =
          some ⟨service_title, platforms, tier, t, r0.first_seen_at⟩ := by
        unfold upsert_catalog_item
        rcases h0 with h | ⟨h, hf⟩
        · simp [h, assocGet_set_self]
        · simp [h, assocGet_set_self, hf]
      have := upsertSeq_tracks service igdb_id service_title platforms tier region ts2 t2
        (upsert_catalog_item db service igdb_id service_title platforms tier region t)
        ⟨service_title, platforms, tier, t, r0.first_seen_at⟩ hstep
      rw [this]
      rw [List.getLast_cons (List.cons_ne_nil t2 ts2)]
  refine ⟨?_, ?_, ?_⟩
  · cases h : assocGet db.catalog ⟨service, igdb_id, region⟩ with
    | none =>
      rw [hfull ⟨service_title, platforms, tier, t, t⟩ (Or.inr ⟨h, rfl⟩)]
      rfl
    | some r =>
      rw [hfull r (Or.inl h)]
      rfl
  · intro h
    rw [hfull ⟨service_title, platforms, tier, t, t⟩ (Or.inr ⟨h, rfl⟩)]
    rfl
  · intro r h
    rw [hfull r (Or.inl h)]
    rfl

/-- C3 (witness): three sequential upserts at times 1 < 2 < 3 on a fresh key
store `first_seen_at = 1` and `last_seen_at = 3`. -/
theorem upsertSeq_first_last_witness :
    (assocGet (upsertSeq emptyDb "gamepass" 7 "T" [] none "US" [1, 2, 3]).catalog
      ⟨"gamepass", 7, "US"⟩).map CatalogRow.last_seen_at = some 3 ∧
    (assocGet (upsertSeq emptyDb "gamepass" 7 "T" [] none "US" [1, 2, 3]).catalog
      ⟨"gamepass", 7, "US"⟩).map CatalogRow.first_seen_at = some 1 :=
  ⟨(upsertSeq_first_last emptyDb "gamepass" 7 "T" [] none "US" 1 [2, 3]
      (by simp [List.chain'_cons])).1,
   (upsertSeq_first_last emptyDb "gamepass" 7 "T" [] none "US" 1 [2, 3]
      (by simp [List.chain'_cons])).2.1 (by decide)⟩

/-! ### Claim C2: resolver memoisation -/

/-- C2: two calls of `_resolve_igdb_id` for the same unmatched title issue a
remote search call each (one plus one, not "at most one"): the stored
"no match" marker is `None`, which the guard `if cached_id is not None`
cannot tell apart from an absent memo entry, so the second call repeats the
whole lookup including the remote search. -/
theorem resolve_igdb_id_no_match_not_memoised :
    c2run1.1 = none ∧ c2run1.2.2 = 1 ∧ c2run2.2.2 = 1 := by
  refine ⟨by decide, by decide, by decide⟩

/-! ### Claims C10 and C5: search_games short-circuit and degradation -/

/-- C10: a query that strips to whitespace-only content makes `search_games`
return immediately: empty result list, database untouched (no Identity Store
or payload-cache write), and zero remote search calls. -/
theorem search_games_blank_query (api : RemoteApi) (query : String) (limit : Nat)
    (db : DbState) (h : strTrim query = "") :
    search_games api query limit db = ([], db, 0) := by
  simp [search_games, h]

/-- C10 (witness): the literal three-space query on a populated store. -/
theorem search_games_blank_query_witness :
    search_games apiDown "   " 5 haloDb = ([], haloDb, 0) :=
  search_games_blank_query apiDown "   " 5 haloDb (by decide)

theorem find_games_length_le (db : DbState) (query : String) (limit : Nat) :
    (find_games db query limit).length ≤ limit := by
  simp only [find_games]
  rw [List.length_take]
  exact min_le_left _ _

theorem fallback_search_take (db : DbState) (q : String) (limit : Nat) :
    (fallback_search db q limit).take limit = fallback_search db q limit :=
  List.take_of_length_le
    (by simpa [fallback_search] using find_games_length_le db q limit)

/-- C5: when the remote identity call raises, `search_games` returns the
fallback results served from the local Identity Store lookup — an empty list
when no stored row matches — with the database unchanged (in particular no
cache write happens for fallback results) and no exception escaping. -/
theorem search_games_remote_failure (api : RemoteApi) (query : String) (limit : Nat)
    (db : DbState) (hq : ¬ (strTrim query = ""))
    (hfail : api (strTrim query) = RemoteResult.fail) :
    search_games api query limit db = (fallback_search db (strTrim query) limit, db, 1) := by
  simp [search_games, hq, hfail, fallback_search_take]

/-- C5 (witness): with the remote down, searching "halo" over a store that
previously cached "Halo Infinite" yields exactly the one fallback record and
leaves the store unchanged. -/
theorem search_games_remote_failure_witness :
    search_games apiDown "halo" 5 haloDb = (fallback_search haloDb (strTrim "halo") 5, haloDb, 1) ∧
    (fallback_search haloDb (strTrim "halo") 5).length = 1 :=
  ⟨search_games_remote_failure apiDown "halo" 5 haloDb (by decide) rfl, by decide⟩

/-! ### Claim C4: the refresh envelope -/

/-- C4 (counterexample): with mock data enabled and the fixture file
missing, `refresh_mock_gamepass` raises `FileNotFoundError` and the handler,
which has no exception handling, propagates it instead of returning the
claimed success envelope. -/
theorem refresh_missing_fixture_cx :
    refresh_endpoint true none 0 emptyDb = Except.error () := rfl

theorem refresh_mock_entries_ok (now : Nat) (region : String) :
    ∀ (es : List MockEntry) (db : DbState),
      (∀ e ∈ es, e.igdb_id.isSome ∧ e.name.isSome ∧ e.service_title.isSome) →
      ∃ db2, refresh_mock_entries now region es db = Except.ok (es.length, db2) := by
  intro es
  induction es with
  | nil => intro db _; exact ⟨db, rfl⟩
  | cons e es ih =>
    intro db h
    obtain ⟨h1, h2, h3⟩ := h e (List.mem_cons_self e es)
    obtain ⟨i, hi⟩ := Option.isSome_iff_exists.mp h1
    obtain ⟨n, hn⟩ := Option.isSome_iff_exists.mp h2
    obtain ⟨s, hs⟩ := Option.isSome_iff_exists.mp h3
    obtain ⟨db2, hdb2⟩ := ih
      (upsert_catalog_item (ensure_game_from_catalog db n i e.first_release_year)
        "gamepass" i s e.platforms none region now)
      (fun x hx => h x (List.mem_cons.mpr (Or.inr hx)))
    exact ⟨db2, by simp [refresh_mock_entries, hi, hn, hs, hdb2, Except.map]⟩

/-- C4 (amended): `/refresh` returns the `{status: "ok", counts: {...}}`
envelope when mock seeding is disabled (empty counts) or when the fixture
file is present and every entry is well-formed (counts = per-service
inserted count); but a missing fixture file or a malformed fixture entry
raises out of the handler, so the "for every input state" part of the claim
does not hold. -/
theorem refresh_success_envelope :
    (∀ (fixture : Option (List MockEntry)) (now : Nat) (db : DbState),
       refresh_endpoint false fixture now db = Except.ok (⟨"ok", []⟩, db)) ∧
    (∀ (entries : List MockEntry) (now : Nat) (db : DbState),
       (∀ e ∈ entries, e.igdb_id.isSome ∧ e.name.isSome ∧ e.service_title.isSome) →
       ∃ db2, refresh_endpoint true (some entries) now db =
         Except.ok (⟨"ok", [("gamepass", entries.length)]⟩, db2)) := by
  constructor
  · intro fixture now db; rfl
  · intro entries now db h
    obtain ⟨db2, hdb2⟩ := refresh_mock_entries_ok now "US" entries db h
    exact ⟨db2, by simp [refresh_endpoint, refresh_mock_gamepass, hdb2, Except.map]⟩

/-- C4 (witness): one well-formed fixture entry produces the ok envelope
with a gamepass count of 1. -/
theorem refresh_success_envelope_witness :
    ∃ db2, refresh_endpoint true (some [c4entryW]) 3 emptyDb =
      Except.ok (⟨"ok", [("gamepass", 1)]⟩, db2) :=
  refresh_success_envelope.2 [c4entryW] 3 emptyDb (by decide)

/-! ### Claim C8: platform normalisation -/

/-- C8: an entry whose platform tokens are xbox, windows and unknownthing
normalises to exactly the ordered sequence
`["console", "pc", "unknownthing"]`: the known tokens map into the
console/pc/cloud vocabulary and come first in that fixed order, the
unrecognised token passes through lower-cased and sorts after them. -/
theorem extract_platforms_example :
    extract_platforms
      [("platforms", JVal.arr [JVal.s "xbox", JVal.s "windows", JVal.s "unknownthing"])] =
      ["console", "pc", "unknownthing"] := by decide

/-! ### Claim C6: partial-failure isolation in the driver -/

theorem cacheRemoteRecord_catalog (db : DbState) (r : Record) :
    (cacheRemoteRecord db r).catalog = db.catalog := rfl

theorem foldl_cacheRemoteRecord_catalog : ∀ (rs : List Record) (db : DbState),
    (rs.foldl cacheRemoteRecord db).catalog = db.catalog := by
  intro rs
  induction rs with
  | nil => intro db; rfl
  | cons r rs ih => intro db; rw [List.foldl_cons, ih, cacheRemoteRecord_catalog]

theorem search_games_catalog (api : RemoteApi) (q : String) (limit : Nat) (db : DbState) :
    (search_games api q limit db).2.1.catalog = db.catalog := by
  by_cases h : strTrim q = ""
  · simp [search_games, h]
  · cases happi : api (strTrim q) with
    | fail => simp [search_games, h, happi, foldl_cacheRemoteRecord_catalog]
    | ok rs => simp [search_games, h, happi, foldl_cacheRemoteRecord_catalog]

theorem ensure_game_from_catalog_catalog (db : DbState) (n : String) (i : Int)
    (y : Option Int) : (ensure_game_from_catalog db n i y).catalog = db.catalog := by
  unfold ensure_game_from_catalog
  cases get_game db i <;> rfl

theorem resolve_igdb_id_catalog (api : RemoteApi) (t : String) (st : AppState) :
    (resolve_igdb_id api t st).2.1.db.catalog = st.db.catalog := by
  simp only [resolve_igdb_id]
  cases h1 : (assocGet st.memo (strLower t)).join with
  | some i => rfl
  | none =>
    cases h2 : get_cached_igdb st.db t with
    | some payload => simp [h2]
    | none =>
      cases h3 : (search_games api t 1 st.db).1 with
      | nil => simp [h3, search_games_catalog]
      | cons r rs => simp [h3, search_games_catalog]

theorem processResolved_false_catalog (env : GpEnv) (region : String) (st : AppState)
    (e : Entry) (title : String) (i : Int)
    (h : (processResolved env region st e title i).2 = false) :
    (processResolved env region st e title i).1.db.catalog = st.db.catalog := by
  by_cases hf : env.upsertFails ⟨"gamepass", i, region⟩ = true
  · simp [processResolved, hf, ensure_game_from_catalog_catalog]
  · simp [processResolved, hf] at h

theorem processEntry_false_catalog (env : GpEnv) (region : String) (st : AppState)
    (e : Entry) (h : (processEntry env region st e).2 = false) :
    (processEntry env region st e).1.db.catalog = st.db.catalog := by
  simp only [processEntry] at h ⊢
  cases ht : entryTitle e with
  | none => simp [ht]
  | some title =>
    simp only [ht] at h ⊢
    cases hid : entryInlineId e with
    | some i =>
      simp only [hid] at h ⊢
      exact processResolved_false_catalog env region st e title i h
    | none =>
      simp only [hid] at h ⊢
      cases hr : (resolve_igdb_id env.api title st).1 with
      | none =>
        simp only [hr]
        exact resolve_igdb_id_catalog env.api title st
      | some i =>
        simp only [hr] at h ⊢
        by_cases hz : i = 0
        · simp only [hz, if_pos]
          exact resolve_igdb_id_catalog env.api title st
        · rw [if_neg hz] at h ⊢
          rw [processResolved_false_catalog env region
            (resolve_igdb_id env.api title st).2.1 e title i h]
          exact resolve_igdb_id_catalog env.api title st

theorem refresh_gamepass_us_append (env : GpEnv) (region : String) :
    ∀ (xs ys : List Entry) (st : AppState),
      (refresh_gamepass_us env region (xs ++ ys) st).1 =
        (refresh_gamepass_us env region xs st).1 +
        (refresh_gamepass_us env region ys (refresh_gamepass_us env region xs st).2).1 ∧
      (refresh_gamepass_us env region (xs ++ ys) st).2 =
        (refresh_gamepass_us env region ys (refresh_gamepass_us env region xs st).2).2 := by
  intro xs
  induction xs with
  | nil => intro ys st; simp [refresh_gamepass_us]
  | cons x xs ih =>
    intro ys st
    rw [List.cons_append]
    simp only [refresh_gamepass_us]
    obtain ⟨h1, h2⟩ := ih ys (processEntry env region st x).1
    constructor
    · rw [h1]; omega
    · exact h2

/-- C6: the reconciliation driver isolates per-entry failures.  First
conjunct: the inserted count over any batch is the count over a prefix plus
the count over the rest from the intermediate state — no entry's outcome
aborts the processing of later entries.  Second conjunct: an entry that is
not counted as inserted (skipped for an unresolvable or missing title/id, or
whose membership upsert raised) leaves the catalog store untouched, so the
returned count is exactly the number of successful membership upserts. -/
theorem refresh_gamepass_us_isolation (env : GpEnv) (region : String) :
    (∀ (xs ys : List Entry) (st : AppState),
      (refresh_gamepass_us env region (xs ++ ys) st).1 =
        (refresh_gamepass_us env region xs st).1 +
        (refresh_gamepass_us env region ys (refresh_gamepass_us env region xs st).2).1) ∧
    (∀ (st : AppState) (e : Entry), (processEntry env region st e).2 = false →
      (processEntry env region st e).1.db.catalog = st.db.catalog) :=
  ⟨fun xs ys st => (refresh_gamepass_us_append env region xs ys st).1,
   fun st e h => processEntry_false_catalog env region st e h⟩

/-- C6 (witness): on an environment whose membership upsert always raises, a
well-formed entry is processed without error, counts as not inserted, and
leaves the catalog unchanged. -/
theorem refresh_gamepass_us_isolation_witness :
    (processEntry c6env "US" emptyApp c6entry).1.db.catalog = emptyApp.db.catalog :=
  (refresh_gamepass_us_isolation c6env "US").2 emptyApp c6entry (by decide)

/-! ### LIKE-matcher lemmas (claim C9) -/

theorem likeMatchF_mono : ∀ (f g : Nat) (p s : List Char),
    p.length + s.length < f → p.length + s.length < g →
    likeMatchF f p s = likeMatchF g p s := by
  intro f
  induction f with
  | zero => intro g p s hf hg; exact absurd hf (Nat.not_lt_zero _)
  | succ f ih =>
    intro g p s hf hg
    cases g with
    | zero => exact absurd hg (Nat.not_lt_zero _)
    | succ g =>
      cases p with
      | nil =>
        cases s with
        | nil => rfl
        | cons c s2 => rfl
      | cons pc ps =>
        cases s with
        | nil =>
          simp only [likeMatchF]
          by_cases hpc : pc = '%'
          · rw [if_pos hpc, if_pos hpc,
              ih g ps [] (by simp only [List.length_cons, List.length_nil] at hf ⊢; omega)
                (by simp only [List.length_cons, List.length_nil] at hg ⊢; omega)]
          · rw [if_neg hpc, if_neg hpc]
        | cons c s2 =>
          simp only [likeMatchF]
          by_cases hpc : pc = '%'
          · rw [if_pos hpc, if_pos hpc,
              ih g ps (c :: s2) (by simp only [List.length_cons] at hf ⊢; omega)
                (by simp only [List.length_cons] at hg ⊢; omega),
              ih g (pc :: ps) s2 (by simp only [List.length_cons] at hf ⊢; omega)
                (by simp only [List.length_cons] at hg ⊢; omega)]
          · rw [if_neg hpc, if_neg hpc,
              ih g ps s2 (by simp only [List.length_cons] at hf ⊢; omega)
                (by simp only [List.length_cons] at hg ⊢; omega)]

theorem likeMatch_nil (s : List Char) : likeMatch [] s = s.isEmpty := by
  cases s <;> rfl

theorem likeMatch_cons_nil (pc : Char) (ps : List Char) :
    likeMatch (pc :: ps) [] = (if pc = '%' then likeMatch ps [] else false) := rfl

theorem likeMatch_cons_cons (pc c : Char) (ps s2 : List Char) :
    likeMatch (pc :: ps) (c :: s2) =
      (if pc = '%' then likeMatch ps (c :: s2) || likeMatch (pc :: ps) s2
       else if pc = '_' then likeMatch ps s2
       else (pc = c) && likeMatch ps s2) := by
  have e1 : likeMatch (pc :: ps) (c :: s2) =
      (if pc = '%' then
        likeMatchF ((ps.length + 1) + (s2.length + 1)) ps (c :: s2) ||
          likeMatchF ((ps.length + 1) + (s2.length + 1)) (pc :: ps) s2
       else if pc = '_' then likeMatchF ((ps.length + 1) + (s2.length + 1)) ps s2
       else (pc = c) && likeMatchF ((ps.length + 1) + (s2.length + 1)) ps s2) := rfl
  rw [e1,
    likeMatchF_mono ((ps.length + 1) + (s2.length + 1)) (ps.length + (c :: s2).length + 1)
      ps (c :: s2) (by simp only [List.length_cons]; omega) (by simp only [List.length_cons]; omega),
    likeMatchF_mono ((ps.length + 1) + (s2.length + 1)) ((pc :: ps).length + s2.length + 1)
      (pc :: ps) s2 (by simp only [List.length_cons]; omega) (by simp only [List.length_cons]; omega),
    likeMatchF_mono ((ps.length + 1) + (s2.length + 1)) (ps.length + s2.length + 1)
      ps s2 (by omega) (by omega)]
  rfl

theorem likeMatch_pct_univ : ∀ s : List Char, likeMatch ['%'] s = true := by
  intro s
  induction s with
  | nil => rfl
  | cons c s2 ih =>
    rw [likeMatch_cons_cons, if_pos rfl, likeMatch_nil, ih]
    simp

theorem likeMatch_append_pct : ∀ (q : List Char), (∀ c ∈ q, c ≠ '%' ∧ c ≠ '_') →
    ∀ s : List Char, (likeMatch (q ++ ['%']) s = true ↔ q <+: s) := by
  intro q
  induction q with
  | nil =>
    intro _ s
    simp [likeMatch_pct_univ s]
  | cons c q ih =>
    intro hq s
    obtain ⟨hc1, hc2⟩ := hq c (List.mem_cons_self c q)
    have hq2 : ∀ x ∈ q, x ≠ '%' ∧ x ≠ '_' := fun x hx => hq x (List.mem_cons.mpr (Or.inr hx))
    cases s with
    | nil =>
      rw [List.cons_append, likeMatch_cons_nil, if_neg hc1]
      simp
    | cons d s2 =>
      rw [List.cons_append, likeMatch_cons_cons, if_neg hc1, if_neg hc2,
        List.cons_prefix_cons, Bool.and_eq_true, decide_eq_true_eq, ih hq2 s2]

theorem likeMatch_pct_iff (ps : List Char) : ∀ s : List Char,
    (likeMatch ('%' :: ps) s = true ↔ ∃ t, t <:+ s ∧ likeMatch ps t = true) := by
  intro s
  induction s with
  | nil =>
    rw [likeMatch_cons_nil, if_pos rfl]
    constructor
    · intro h; exact ⟨[], List.suffix_refl [], h⟩
    · rintro ⟨t, ht, hm⟩
      rw [List.suffix_nil] at ht
      rw [ht] at hm
      exact hm
  | cons d s2 ih =>
    rw [likeMatch_cons_cons, if_pos rfl, Bool.or_eq_true, ih]
    constructor
    · rintro (h1 | ⟨t, ht, hm⟩)
      · exact ⟨d :: s2, List.suffix_refl _, h1⟩
      · exact ⟨t, ht.trans (List.suffix_cons d s2), hm⟩
    · rintro ⟨t, ht, hm⟩
      rcases List.suffix_cons_iff.mp ht with h1 | h1
      · subst h1; exact Or.inl hm
      · exact Or.inr ⟨t, h1, hm⟩

theorem likeMatch_infix_iff (q : List Char) (hq : ∀ c ∈ q, c ≠ '%' ∧ c ≠ '_')
    (s : List Char) : likeMatch ('%' :: (q ++ ['%'])) s = true ↔ q <:+: s := by
  rw [likeMatch_pct_iff]
  constructor
  · rintro ⟨t, ht, hm⟩
    exact List.infix_iff_prefix_suffix.mpr ⟨t, (likeMatch_append_pct q hq t).mp hm, ht⟩
  · intro h
    obtain ⟨t, hp, hs⟩ := List.infix_iff_prefix_suffix.mp h
    exact ⟨t, hs, (likeMatch_append_pct q hq t).mpr hp⟩

/-! ### Code-point order lemmas (claim C9 ordering) -/

theorem lexLt_cons_iff (a b : Char) (as bs : List Char) :
    lexLt (a :: as) (b :: bs) = true ↔
      (a.toNat < b.toNat ∨ (a.toNat = b.toNat ∧ lexLt as bs = true)) := by
  show (if a.toNat < b.toNat then true
        else if b.toNat < a.toNat then false else lexLt as bs) = true ↔ _
  rcases Nat.lt_trichotomy a.toNat b.toNat with h | h | h
  · simp [h]
  · have h1 : ¬ a.toNat < b.toNat := by omega
    have h2 : ¬ b.toNat < a.toNat := by omega
    simp [h1, h2, h]
  · have h1 : ¬ a.toNat < b.toNat := by omega
    have h3 : ¬ a.toNat = b.toNat := by omega
    simp [h1, h, h3]

theorem lexLt_irrefl : ∀ as : List Char, lexLt as as = false := by
  intro as
  induction as with
  | nil => rfl
  | cons a as ih =>
    show (if a.toNat < a.toNat then true
          else if a.toNat < a.toNat then false else lexLt as as) = false
    simp [ih]

theorem lexLt_trans : ∀ as bs cs : List Char,
    lexLt as bs = true → lexLt bs cs = true → lexLt as cs = true := by
  intro as
  induction as with
  | nil =>
    intro bs cs h1 h2
    cases bs with
    | nil => simp [lexLt] at h1
    | cons b bt =>
      cases cs with
      | nil => simp [lexLt] at h2
      | cons c ct => rfl
  | cons a at1 ih =>
    intro bs cs h1 h2
    cases bs with
    | nil => simp [lexLt] at h1
    | cons b bt =>
      cases cs with
      | nil => simp [lexLt] at h2
      | cons c ct =>
        rw [lexLt_cons_iff] at h1 h2 ⊢
        rcases h1 with h1 | ⟨h1e, h1r⟩
        · rcases h2 with h2 | ⟨h2e, h2r⟩
          · exact Or.inl (by omega)
          · exact Or.inl (by omega)
        · rcases h2 with h2 | ⟨h2e, h2r⟩
          · exact Or.inl (by omega)
          · exact Or.inr ⟨by omega, ih bt ct h1r h2r⟩

theorem char_eq_of_toNat_eq {a b : Char} (h : a.toNat = b.toNat) : a = b :=
  Char.ext (UInt32.ext h)

theorem lexLt_eq_of_not : ∀ as bs : List Char,
    lexLt as bs = false → lexLt bs as = false → as = bs := by
  intro as
  induction as with
  | nil =>
    intro bs h1 h2
    cases bs with
    | nil => rfl
    | cons b bt => simp [lexLt] at h1
  | cons a at1 ih =>
    intro bs h1 h2
    cases bs with
    | nil => simp [lexLt] at h2
    | cons b bt =>
      have e1 : ¬ (lexLt (a :: at1) (b :: bt) = true) := by simp [h1]
      have e2 : ¬ (lexLt (b :: bt) (a :: at1) = true) := by simp [h2]
      rw [lexLt_cons_iff] at e1 e2
      push_neg at e1 e2
      obtain ⟨e1a, e1b⟩ := e1
      obtain ⟨e2a, e2b⟩ := e2
      have hab : a.toNat = b.toNat := by omega
      have hrec1 : lexLt at1 bt = false := by
        cases hx : lexLt at1 bt with
        | false => rfl
        | true => exact absurd hx (e1b hab)
      have hrec2 : lexLt bt at1 = false := by
        cases hx : lexLt bt at1 with
        | false => rfl
        | true => exact absurd hx (e2b hab.symm)
      rw [char_eq_of_toNat_eq hab, ih bt hrec1 hrec2]

theorem strLe_total (a b : String) : strLe a b = true ∨ strLe b a = true := by
  unfold strLe
  cases h1 : lexLt b.data a.data with
  | false => left; rfl
  | true =>
    right
    cases h2 : lexLt a.data b.data with
    | false => rfl
    | true =>
      exfalso
      have h3 := lexLt_trans _ _ _ h1 h2
      rw [lexLt_irrefl] at h3
      exact Bool.false_ne_true h3

theorem strLe_trans (a b c : String) (h1 : strLe a b = true) (h2 : strLe b c = true) :
    strLe a c = true := by
  unfold strLe at h1 h2 ⊢
  rw [Bool.not_eq_true'] at h1 h2 ⊢
  cases h3 : lexLt c.data a.data with
  | false => rfl
  | true =>
    exfalso
    cases h4 : lexLt a.data b.data with
    | false =>
      have hab := lexLt_eq_of_not _ _ h4 h1
      rw [hab] at h3
      simp [h2] at h3
    | true =>
      cases h5 : lexLt b.data c.data with
      | false =>
        have hbc := lexLt_eq_of_not _ _ h5 h2
        rw [← hbc] at h3
        simp [h1] at h3
      | true =>
        have h6 := lexLt_trans _ _ _ h4 h5
        have h7 := lexLt_trans _ _ _ h3 h6
        rw [lexLt_irrefl] at h7
        exact Bool.false_ne_true h7

/-! ### Insertion-sort lemmas (claim C9 ordering) -/

theorem mem_insertOrd {α : Type} (le : α → α → Bool) (x : α) :
    ∀ (l : List α) (y : α), y ∈ insertOrd le x l ↔ y = x ∨ y ∈ l := by
  intro l
  induction l with
  | nil => intro y; simp [insertOrd]
  | cons z t ih =>
    intro y
    rw [insertOrd]
    by_cases h : le x z = true
    · rw [if_pos h]
      simp [List.mem_cons]
    · rw [if_neg h]
      simp only [List.mem_cons, ih y]
      tauto

theorem pairwise_insertOrd {α : Type} (le : α → α → Bool)
    (htot : ∀ a b, le a b = true ∨ le b a = true)
    (htr : ∀ a b c, le a b = true → le b c = true → le a c = true) (x : α) :
    ∀ l : List α, l.Pairwise (fun a b => le a b = true) →
      (insertOrd le x l).Pairwise (fun a b => le a b = true) := by
  intro l
  induction l with
  | nil => intro _; simp [insertOrd]
  | cons y t ih =>
    intro hp
    rw [List.pairwise_cons] at hp
    obtain ⟨hy, ht⟩ := hp
    rw [insertOrd]
    by_cases h : le x y = true
    · rw [if_pos h]
      refine List.Pairwise.cons ?_ (List.Pairwise.cons hy ht)
      intro z hz
      rcases List.mem_cons.mp hz with hzy | hz2
      · subst hzy
        exact h
      · exact htr x y z h (hy z hz2)
    · rw [if_neg h]
      refine List.Pairwise.cons ?_ (ih ht)
      intro z hz
      rcases (mem_insertOrd le x t z).mp hz with hzx | hz2
      · rw [hzx]
        rcases htot x y with h1 | h1
        · exact absurd h1 h
        · exact h1
      · exact hy z hz2

theorem pairwise_sortWith {α : Type} (le : α → α → Bool)
    (htot : ∀ a b, le a b = true ∨ le b a = true)
    (htr : ∀ a b c, le a b = true → le b c = true → le a c = true) :
    ∀ l : List α, (sortWith le l).Pairwise (fun a b => le a b = true) := by
  intro l
  induction l with
  | nil => simp [sortWith]
  | cons y t ih =>
    rw [sortWith]
    exact pairwise_insertOrd le htot htr y _ ih

theorem bool_eq_decide {P : Prop} [Decidable P] {b : Bool} (h : b = true ↔ P) :
    b = decide P := by
  by_cases hp : P
  · rw [h.mpr hp]
    exact (decide_eq_true hp).symm
  · have hb : b = false := by
      cases hbv : b with
      | false => rfl
      | true => exact absurd (h.mp hbv) hp
    rw [hb]
    exact (decide_eq_false hp).symm

/-! ### Claim C9: find_games -/

/-- C9 (counterexample): the query text is interpolated into the SQL `LIKE`
pattern, so its `_` acts as a single-character wildcard: the query "a_c"
returns the game named "abc" although "a_c" is not a substring of the name
or of the serialised alternate names.  `find_games` therefore does not
return "exactly the games whose name or serialized alternate-names contain
the query as a case-insensitive substring" for every query string. -/
theorem find_games_wildcard_cx :
    find_games c9db "a_c" 5 = [c9row] ∧ ¬ substrMatchP "a_c" c9row := by
  constructor
  · decide
  · decide

/-- C9 (amended): for query strings whose lower-cased form contains neither
`%` nor `_`, `find_games` returns exactly the games whose name or serialised
alternate names contain the query case-insensitively — the sorted match list
truncated at `limit` — ordered by name ascending and never more than `limit`
rows (queries containing `%` or `_` instead match per SQL LIKE wildcard
semantics, and the empty result is a list, never an error). -/
theorem find_games_substring_spec (db : DbState) (query : String) (limit : Nat)
    (hq : noWildcards (strLower query)) :
    find_games db query limit =
      (sortWith (fun a b => strLe a.name b.name)
        (db.games.filter (fun g => decide (substrMatchP query g)))).take limit ∧
    List.Pairwise (fun a b : GameRow => strLe a.name b.name = true)
      (find_games db query limit) ∧
    (find_games db query limit).length ≤ limit := by
  have hrow : ∀ g : GameRow,
      (likeMatch (likePattern (strLower query)) (strLower g.name).data ||
        likeMatch (likePattern (strLower query)) (strLower (dumpsList g.alt_names)).data) =
      decide (substrMatchP query g) := by
    intro g
    have e1 : likeMatch (likePattern (strLower query)) (strLower g.name).data =
        decide ((strLower query).data <:+: (strLower g.name).data) :=
      bool_eq_decide (likeMatch_infix_iff (strLower query).data hq (strLower g.name).data)
    have e2 : likeMatch (likePattern (strLower query)) (strLower (dumpsList g.alt_names)).data =
        decide ((strLower query).data <:+: (strLower (dumpsList g.alt_names)).data) :=
      bool_eq_decide
        (likeMatch_infix_iff (strLower query).data hq (strLower (dumpsList g.alt_names)).data)
    rw [e1, e2]
    by_cases hA : (strLower query).data <:+: (strLower g.name).data <;>
      by_cases hB : (strLower query).data <:+: (strLower (dumpsList g.alt_names)).data <;>
      simp [substrMatchP, hA, hB]
  refine ⟨?_, ?_, ?_⟩
  · simp only [find_games]
    rw [List.filter_congr (fun g _ => hrow g)]
  · have hp := pairwise_sortWith (fun a b : GameRow => strLe a.name b.name)
      (fun a b => strLe_total a.name b.name)
      (fun a b c hab hbc => strLe_trans a.name b.name c.name hab hbc)
      (db.games.filter (fun g =>
        likeMatch (likePattern (strLower query)) (strLower g.name).data ||
        likeMatch (likePattern (strLower query)) (strLower (dumpsList g.alt_names)).data))
    simp only [find_games]
    exact List.Pairwise.sublist (List.take_sublist _ _) hp
  · exact find_games_length_le db query limit

/-- C9 (witness): the wildcard-free query "halo" over `haloDb` is exactly
the sorted, truncated substring-match list, sorted by name, within the
limit. -/
theorem find_games_substring_spec_witness :
    find_games haloDb "halo" 5 =
      (sortWith (fun a b => strLe a.name b.name)
        (haloDb.games.filter (fun g => decide (substrMatchP "halo" g)))).take 5 ∧
    List.Pairwise (fun a b : GameRow => strLe a.name b.name = true)
      (find_games haloDb "halo" 5) ∧
    (find_games haloDb "halo" 5).length ≤ 5 :=
  find_games_substring_spec haloDb "halo" 5 (by decide)

end GameTracking
